import Mathlib

/-!
Verification of the core of the `binance-rest-client` repository against its
design specification.  The Python sources (`client.py`, `async_tools.py`) are
shallowly embedded: Python dicts become insertion-ordered association lists
with unique keys, floats become rationals, and the per-pair retry loop becomes
a recursive function that also records its observable events (attempts and
sleeps).  Fallible code returns `Except`.
-/

set_option maxHeartbeats 1000000

instance {ε α : Type} [DecidableEq ε] [DecidableEq α] :
    DecidableEq (Except ε α) := fun x y =>
  match x, y with
  | Except.ok a, Except.ok b =>
    if h : a = b then Decidable.isTrue (by rw [h])
    else Decidable.isFalse (by intro hh; injection hh; exact h (by assumption))
  | Except.error e, Except.error f =>
    if h : e = f then Decidable.isTrue (by rw [h])
    else Decidable.isFalse (by intro hh; injection hh; exact h (by assumption))
  | Except.ok _, Except.error _ =>
    Decidable.isFalse (fun hh => Except.noConfusion hh)
  | Except.error _, Except.ok _ =>
    Decidable.isFalse (fun hh => Except.noConfusion hh)

namespace BinanceSpec

/-! ## Python dict model

An insertion-ordered association list.  `dictGet`/`dictSet`/`dictPop`/
`dictUpdate` mirror `d[k]`, `d[k] = v`, `d.pop(k)` and `d.update(other)` for
dicts with unique keys. -/

def dictGet {α : Type} (d : List (String × α)) (k : String) : Option α :=
  (d.find? (fun kv => kv.1 = k)).map Prod.snd

def dictKeys {α : Type} (d : List (String × α)) : List String :=
  d.map Prod.fst

/-- `d[k] = v`: replace the value at the (unique) occurrence of `k`, keeping
its position, or append `(k, v)` when the key is absent. -/
def dictSet {α : Type} : List (String × α) → String → α → List (String × α)
  | [], k, v => [(k, v)]
  | kv :: rest, k, v =>
    if kv.1 = k then (k, v) :: rest else kv :: dictSet rest k v

def dictPop {α : Type} (d : List (String × α)) (k : String) :
    List (String × α) :=
  d.filter (fun kv => kv.1 ≠ k)

def dictUpdate {α : Type} (d other : List (String × α)) : List (String × α) :=
  other.foldl (fun acc kv => dictSet acc kv.1 kv.2) d

/-! ## Parameter values

`PVal` models the Python values that travel through `BinanceRestClient`
request parameters: `None`, strings, ints and nested dicts. -/

inductive PVal : Type where
  | null : PVal
  | str (s : String) : PVal
  | int (z : Int) : PVal
  | dict (entries : List (String × PVal)) : PVal
  | pairs (l : List (String × PVal)) : PVal
deriving Repr

/-- Python truthiness of the modelled values: `None`, `""`, `0`, `{}` and `[]`
are falsy.  (`pairs` is the list-of-tuples shape `_order_params` produces.) -/
def pvalTruthy : PVal → Bool
  | PVal.null => false
  | PVal.str s => s ≠ ""
  | PVal.int z => z ≠ 0
  | PVal.dict d => !d.isEmpty
  | PVal.pairs l => !l.isEmpty

/-- Rendering of a value inside `"{}={}".format(key, value)`:
`None` prints as `"None"`, strings print verbatim, ints in decimal.
(Request parameters are never dict-valued at rendering time; the `dict`
case stands for Python's `repr`, whose exact text no claim depends on.) -/
def renderVal : PVal → String
  | PVal.null => "None"
  | PVal.str s => s
  | PVal.int z => toString z
  | PVal.dict _ => "<dict>"
  | PVal.pairs _ => "<pairs>"

/-- `BinanceRestClient._order_params` (client.py lines 107-125): collect the
non-`signature` entries, sort them by key, and append the `signature` entry
last when the input has one. -/
def orderParams (data : List (String × PVal)) : List (String × PVal) :=
  let params := data.filter (fun kv => kv.1 ≠ "signature")
  let sorted := params.mergeSort (fun a b => a.1 ≤ b.1)
  match dictGet data "signature" with
  | Option.some v => sorted ++ [("signature", v)]
  | Option.none => sorted

/-- The query-string rendering `"&".join("{}={}".format(k, v) ...)` used by
`_generate_signature` (line 132) and the GET branch of `_request`
(lines 223-226). -/
def renderParams (l : List (String × PVal)) : String :=
  String.intercalate "&" (l.map (fun kv => kv.1 ++ "=" ++ renderVal kv.2))

/-! ## Helper lemmas about the dict model -/

theorem dictGet_eq_some_of_mem {α : Type} {d : List (String × α)} {k : String}
    {v : α} (hnd : (d.map Prod.fst).Nodup) (hmem : (k, v) ∈ d) :
    dictGet d k = Option.some v := by
  induction d with
  | nil => cases hmem
  | cons hd tl ih =>
    rcases List.mem_cons.mp hmem with heq | htl
    · subst heq
      simp [dictGet]
    · have hk : hd.1 ≠ k := by
        intro hk
        have : k ∈ tl.map Prod.fst := List.mem_map.mpr ⟨(k, v), htl, rfl⟩
        rw [List.map_cons, List.nodup_cons] at hnd
        exact hnd.1 (hk ▸ this)
      have hnd' : (tl.map Prod.fst).Nodup := by
        rw [List.map_cons, List.nodup_cons] at hnd
        exact hnd.2
      simp only [dictGet, List.find?_cons]
      rw [show (decide (hd.1 = k)) = false from decide_eq_false hk]
      exact ih hnd' htl

theorem string_le_trans (a b c : String × PVal)
    (hab : (decide (a.1 ≤ b.1)) = true) (hbc : (decide (b.1 ≤ c.1)) = true) :
    (decide (a.1 ≤ c.1)) = true := by
  rw [decide_eq_true_eq] at *
  exact le_trans hab hbc

theorem string_le_total (a b : String × PVal) :
    ((decide (a.1 ≤ b.1)) || (decide (b.1 ≤ a.1))) = true := by
  rcases le_total a.1 b.1 with h | h
  · simp [h]
  · simp [h]

/-- The non-`signature` part of `orderParams data` is exactly the sort of the
non-`signature` entries of `data`. -/
theorem orderParams_filter_eq (data : List (String × PVal)) :
    (orderParams data).filter (fun kv => kv.1 ≠ "signature") =
      (data.filter (fun kv => kv.1 ≠ "signature")).mergeSort
        (fun a b => a.1 ≤ b.1) := by
  have hall : ∀ kv ∈ (data.filter (fun kv => kv.1 ≠ "signature")).mergeSort
      (fun a b => a.1 ≤ b.1), (kv.1 ≠ "signature") := by
    intro kv hkv
    have := (List.mergeSort_perm (data.filter (fun kv => kv.1 ≠ "signature"))
      (fun a b => a.1 ≤ b.1)).mem_iff.mp hkv
    have := List.of_mem_filter this
    simpa using this
  have hfil : ((data.filter (fun kv => kv.1 ≠ "signature")).mergeSort
      (fun a b => a.1 ≤ b.1)).filter (fun kv => kv.1 ≠ "signature") =
      (data.filter (fun kv => kv.1 ≠ "signature")).mergeSort
        (fun a b => a.1 ≤ b.1) := by
    apply List.filter_eq_self.mpr
    intro kv hkv
    simpa using hall kv hkv
  unfold orderParams
  match hsig : dictGet data "signature" with
  | Option.some v =>
    simp only [List.filter_append, hfil]
    simp
  | Option.none =>
    exact hfil

/-- C4: for every mapping of parameter names to values (unique keys), the
canonicalized parameter list produced by `_order_params` keeps every
non-`signature` entry with its value (a permutation of the input's
non-`signature` entries), lists them sorted lexicographically by key, and
relocates a `signature` entry, if present anywhere in the input, to the last
position regardless of its key's lexical order. -/
theorem C4_order_params_canonical (data : List (String × PVal))
    (hnd : (data.map Prod.fst).Nodup) :
    ((orderParams data).filter (fun kv => kv.1 ≠ "signature")).Perm
        (data.filter (fun kv => kv.1 ≠ "signature"))
    ∧ List.Pairwise (fun a b : String × PVal => a.1 ≤ b.1)
        ((orderParams data).filter (fun kv => kv.1 ≠ "signature"))
    ∧ ∀ v : PVal, ("signature", v) ∈ data →
        (orderParams data).getLast? = Option.some ("signature", v) := by
  refine ⟨?_, ?_, ?_⟩
  · rw [orderParams_filter_eq]
    exact List.mergeSort_perm _ _
  · rw [orderParams_filter_eq]
    have := @List.sorted_mergeSort (String × PVal)
      (fun a b => a.1 ≤ b.1) string_le_trans string_le_total
      (data.filter (fun kv => kv.1 ≠ "signature"))
    exact this.imp (fun h => by simpa using h)
  · intro v hv
    have hsig : dictGet data "signature" = Option.some v :=
      dictGet_eq_some_of_mem hnd hv
    unfold orderParams
    rw [hsig]
    exact List.getLast?_concat _

/-- Concrete parameter set for the C4 witness: `signature` sits in the middle
of the insertion order. -/
def c4data : List (String × PVal) :=
  [("b", PVal.str "2"), ("signature", PVal.str "sig-hex"), ("a", PVal.str "1")]

theorem C4_order_params_canonical_witness :
    ((c4data.map Prod.fst).Nodup)
    ∧ (((orderParams c4data).filter (fun kv => kv.1 ≠ "signature")).Perm
          (c4data.filter (fun kv => kv.1 ≠ "signature"))
      ∧ List.Pairwise (fun a b : String × PVal => a.1 ≤ b.1)
          ((orderParams c4data).filter (fun kv => kv.1 ≠ "signature"))
      ∧ ∀ v : PVal, ("signature", v) ∈ c4data →
          (orderParams c4data).getLast? = Option.some ("signature", v)) :=
  ⟨by decide, C4_order_params_canonical c4data (by decide)⟩

/-! ## Embedding of `async_tools.py` (`BinanceKlinesFetcher`)

Prices are rationals; a stored kline row is the Python `list`
`[open, high, low, close, closeTime]`, modelled as `List ℚ` (the epoch-ms
close time embeds into `ℚ` unchanged, as Python keeps it an `int` inside a
list of floats). -/

/-- A raw upstream kline row.  The exchange returns rows of at least 7
positional fields; `get_single_pair` reads positions 1-4 (open, high, low,
close) and 6 (close time), so the embedding keeps fields 0-6.  Field `fi`
is position `i` of the Python row. -/
structure RawKline where
  f0 : ℚ
  f1 : ℚ
  f2 : ℚ
  f3 : ℚ
  f4 : ℚ
  f5 : ℚ
  f6 : ℚ
deriving Repr

/-- The decoded JSON of one kline request: either a JSON object (the
defensive `isinstance(resp, dict)` branch treats it as empty) or a sequence
of raw rows. -/
inductive JsonResp : Type where
  | obj : JsonResp
  | rows (rs : List RawKline) : JsonResp
deriving Repr

/-- Outcome of one `session.get` attempt inside `get_single_pair`:
an `asyncio.TimeoutError`, any other exception, or a decoded JSON body. -/
inductive AttemptOutcome : Type where
  | timeout : AttemptOutcome
  | failure : AttemptOutcome
  | success (j : JsonResp) : AttemptOutcome
deriving Repr

/-- The value of the Python local `resp` when the retry loop finishes:
either the decoded JSON (success break) or the `[]` assigned on a non-timeout
exception or on exhaustion (the `for ... else` branch). -/
inductive RespVal : Type where
  | json (j : JsonResp) : RespVal
  | emptyList : RespVal
deriving Repr

/-- Observable events of the retry loop: issuing attempt `k` (0-indexed) and
awaiting `asyncio.sleep d`. -/
inductive Event : Type where
  | attempt (k : Nat) : Event
  | sleep (d : ℚ) : Event
deriving Repr, DecidableEq

structure LoopResult where
  resp : RespVal
  events : List Event

/-- The retry loop of `get_single_pair` (async_tools.py lines 77-98), started
at attempt index `k` with `rem` iterations left.  On success the loop breaks
with the JSON; on a non-timeout exception it breaks with `resp = []`; on a
timeout it logs, sleeps `init_backoff * 2 ** attempt` and continues; the
`for ... else` exhaustion branch yields `resp = []`. -/
def loopFrom (backoff : ℚ) (attempts : Nat → AttemptOutcome) :
    Nat → Nat → LoopResult
  | _, 0 => ⟨RespVal.emptyList, []⟩
  | k, rem + 1 =>
    match attempts k with
    | AttemptOutcome.success j => ⟨RespVal.json j, [Event.attempt k]⟩
    | AttemptOutcome.failure => ⟨RespVal.emptyList, [Event.attempt k]⟩
    | AttemptOutcome.timeout =>
      let rest := loopFrom backoff attempts (k + 1) rem
      ⟨rest.resp, Event.attempt k :: Event.sleep (backoff * 2 ^ k) :: rest.events⟩

/-- `[float(r[1]), float(r[2]), float(r[3]), float(r[4]), r[6]]`. -/
def projectRow (r : RawKline) : List ℚ := [r.f1, r.f2, r.f3, r.f4, r.f6]

/-- Lines 99-105: a dict response is replaced by `[]`; a non-empty row list
is projected to the 5-column shape (projection of an empty list is `[]`,
matching the skipped `if resp:` branch). -/
def normalizeResp : RespVal → List (List ℚ)
  | RespVal.json JsonResp.obj => []
  | RespVal.json (JsonResp.rows rs) => rs.map projectRow
  | RespVal.emptyList => []

/-- `get_single_pair` as a function of the sequence of attempt outcomes:
the row list stored into `self.responses[pair]`.  Total by construction —
every Python path assigns `resp` (mirroring that no exception escapes the
task). -/
def getSinglePair (retries : Nat) (backoff : ℚ)
    (attempts : Nat → AttemptOutcome) : List (List ℚ) :=
  normalizeResp (loopFrom backoff attempts 0 retries).resp

/-- Number of attempts performed, read off the event trace. -/
def attemptCount (evts : List Event) : Nat :=
  (evts.filter (fun e => match e with
    | Event.attempt _ => true
    | Event.sleep _ => false)).length

/-- The wait inserted immediately before attempt `k` in the trace (the sleep
event directly preceding the `attempt k` event), if any. -/
def waitBeforeAttempt (k : Nat) : List Event → Option ℚ
  | [] => Option.none
  | Event.attempt j :: rest =>
    if j = k then Option.none else waitBeforeAttempt k rest
  | [Event.sleep _] => Option.none
  | Event.sleep d :: Event.attempt j :: rest2 =>
    if j = k then Option.some d
    else waitBeforeAttempt k (Event.attempt j :: rest2)
  | Event.sleep _ :: Event.sleep d2 :: rest2 =>
    waitBeforeAttempt k (Event.sleep d2 :: rest2)

/-- The wait inserted immediately after attempt `k` in the trace (the sleep
event directly following the `attempt k` event), if any. -/
def waitAfterAttempt (k : Nat) : List Event → Option ℚ
  | [] => Option.none
  | Event.attempt j :: rest =>
    if j = k then
      match rest with
      | Event.sleep d :: _ => Option.some d
      | _ => Option.none
    else waitAfterAttempt k rest
  | Event.sleep _ :: rest => waitAfterAttempt k rest

/-- `fetch_pairs_klines` (lines 108-125): one task per pair, each writing
exactly its own key of `self.responses`; the final map content is
completion-order independent because the keys are distinct, so the embedding
folds over the pairs in order. -/
def fetchPairsKlines (pairs : List String) (retries : Nat) (backoff : ℚ)
    (attempts : String → Nat → AttemptOutcome) :
    List (String × List (List ℚ)) :=
  pairs.foldl
    (fun resps p => dictSet resps p (getSinglePair retries backoff (attempts p)))
    []

/-- Python substring containment `needle in hay`. -/
def hasSub (needle : List Char) : List Char → Bool
  | [] => needle.isPrefixOf []
  | c :: t => needle.isPrefixOf (c :: t) || hasSub needle t

/-- Floor of a rational as an integer (`x.den` is positive, so flooring
integer division of numerator by denominator). -/
def qfloor (x : ℚ) : ℤ := Int.fdiv x.num (x.den : ℤ)

/-- Python `round(x, 9)` on the exact rational value: round to the nearest
multiple of `10⁻⁹`, computed as `⌊x·10⁹ + 1/2⌋ / 10⁹` (Python's float `round`
differs only on exact ties, which no input in this development produces). -/
def round9 (x : ℚ) : ℚ :=
  ((qfloor (x * 1000000000 + 1 / 2) : ℤ) : ℚ) / 1000000000

/-- The body of the `for p in missing_pairs` loop of `fill_missing_pairs`
(lines 138-150) for one missing pair `p`: scan the current responses in
insertion order for the first donor whose identifier contains `p`'s base
asset and which is not itself in the (pre-computed) missing list; truncate
the donor to the reference length; synthesize rows
`[round(r[0] / eth_usdt[i][0], 9), eth_usdt[i][1]]`.  Row indexing uses
`getD`: in every reachable call the donor rows are 5 columns wide and
`i < eth_usdt.length` by the truncation, so the defaults are never read. -/
def fillOne (missing : List String) (q_l : Nat) (eth_usdt : List (List ℚ))
    (resps : List (String × List (List ℚ))) (p : String) :
    List (String × List (List ℚ)) :=
  -- Python `p.split("-")[0]`: the characters before the first separator
  -- (the whole string when no separator occurs).
  let base := p.toList.takeWhile (fun c => c ≠ '-')
  match resps.find? (fun kv =>
      hasSub base kv.1.toList && !(missing.contains kv.1)) with
  | Option.none => resps
  | Option.some kv =>
    let rows := if kv.2.length > q_l then kv.2.take q_l else kv.2
    let base_eth := rows.enum.map (fun ir =>
      [round9 ((ir.2.getD 0 0) / ((eth_usdt.getD ir.1 []).getD 0 0)),
       (eth_usdt.getD ir.1 []).getD 1 0])
    dictSet resps p base_eth

/-- `fill_missing_pairs` (lines 127-150).  The absent reference pair re-raises
the `KeyError` (modelled as `Except.error`); otherwise the missing pairs
(those mapped to `[]`) are filled in order, threading the mutated responses
map through the loop. -/
def fillMissingPairs (responses : List (String × List (List ℚ))) :
    Except String (List (String × List (List ℚ))) :=
  match dictGet responses "ETH-USDT" with
  | Option.none => Except.error "ETH-USDT is missing"
  | Option.some eth_usdt =>
    let q_l := eth_usdt.length
    let missing := (responses.filter (fun kv => kv.2.isEmpty)).map Prod.fst
    Except.ok (missing.foldl (fillOne missing q_l eth_usdt) responses)

/-- `BinanceKlinesFetcher.__init__` window configuration: `fromTime`/`toTime`
are `int | None` (default `0`), `n_mins` is `float | None` (default `5.0`).
Python truthiness: `None` and `0` are falsy. -/
structure FetcherConfig where
  fromTime : Option Int
  toTime : Option Int
  n_mins : Option ℚ

def truthyOptInt : Option Int → Bool
  | Option.none => false
  | Option.some z => z ≠ 0

def truthyOptQ : Option ℚ → Bool
  | Option.none => false
  | Option.some q => q ≠ 0

/-- `get_backwards_range` (lines 59-69).  `nowMs` is the current UTC time in
epoch milliseconds; `int(datetime.timestamp() * 1000)` is modelled with
`qfloor` (floor and Python's truncation agree on the non-negative timestamps
involved). -/
def getBackwardsRange (cfg : FetcherConfig) (nowMs : Int) :
    Except String (Int × Int) :=
  if truthyOptQ cfg.n_mins = false then
    if truthyOptInt cfg.fromTime && truthyOptInt cfg.toTime then
      Except.ok (cfg.fromTime.getD 0, cfg.toTime.getD 0)
    else Except.error "fromTime and toTime or n_mins are required."
  else
    let utcNow : ℚ := (nowMs : ℚ) - 500
    Except.ok (qfloor (utcNow - (cfg.n_mins.getD 0) * 60000), qfloor utcNow)

/-- The `__init__` validation (lines 34-36): accepts the configuration iff an
explicit window (both endpoints truthy) or a truthy duration is supplied. -/
def initAccepts (cfg : FetcherConfig) : Bool :=
  (truthyOptInt cfg.fromTime && truthyOptInt cfg.toTime) || truthyOptQ cfg.n_mins

/-! ## Dict lemma kit -/

theorem dictGet_cons {α : Type} (x : String × α) (l : List (String × α))
    (k : String) :
    dictGet (x :: l) k = if x.1 = k then Option.some x.2 else dictGet l k := by
  by_cases h : x.1 = k <;> simp [dictGet, List.find?_cons, h]

theorem dictGet_dictSet_self {α : Type} (d : List (String × α)) (k : String)
    (v : α) : dictGet (dictSet d k v) k = Option.some v := by
  induction d with
  | nil => simp [dictSet, dictGet_cons, dictGet]
  | cons hd tl ih =>
    by_cases h : hd.1 = k
    · simp [dictSet, h, dictGet_cons]
    · simp [dictSet, h, dictGet_cons, ih]

theorem dictGet_dictSet_ne {α : Type} (d : List (String × α)) (k k' : String)
    (v : α) (h : k' ≠ k) :
    dictGet (dictSet d k v) k' = dictGet d k' := by
  have h' : k ≠ k' := Ne.symm h
  induction d with
  | nil => simp [dictSet, dictGet_cons, dictGet, h']
  | cons hd tl ih =>
    by_cases hh : hd.1 = k
    · simp [dictSet, hh, dictGet_cons, h']
    · simp only [dictSet, hh, if_false, ite_false, dictGet_cons]
      by_cases hx : hd.1 = k' <;> simp [hx, ih]

theorem dictKeys_dictSet_of_notMem {α : Type} (d : List (String × α))
    (k : String) (v : α) (h : k ∉ dictKeys d) :
    dictKeys (dictSet d k v) = dictKeys d ++ [k] := by
  induction d with
  | nil => simp [dictSet, dictKeys]
  | cons hd tl ih =>
    have h1 : hd.1 ≠ k := by
      intro hh
      exact h (by simp [dictKeys, hh])
    have h2 : k ∉ dictKeys tl := by
      intro hh
      refine h ?_
      simp [dictKeys] at hh ⊢
      exact Or.inr hh
    have ih' := ih h2
    simp [dictSet, h1, dictKeys] at ih' ⊢
    exact ih'

/-! ## Retry-loop lemmas -/

theorem loopFrom_allTimeout (backoff : ℚ) (attempts : Nat → AttemptOutcome) :
    ∀ (rem s : Nat),
      (∀ i, s ≤ i → i < s + rem → attempts i = AttemptOutcome.timeout) →
      (loopFrom backoff attempts s rem).resp = RespVal.emptyList
      ∧ attemptCount (loopFrom backoff attempts s rem).events = rem := by
  intro rem
  induction rem with
  | zero => intro s h; exact ⟨rfl, rfl⟩
  | succ n ih =>
    intro s h
    have hs : attempts s = AttemptOutcome.timeout := h s (le_refl s) (by omega)
    have ihs := ih (s + 1) (fun i h1 h2 => h i (by omega) (by omega))
    refine ⟨?_, ?_⟩
    · simp [loopFrom, hs, ihs.1]
    · have h2 := ihs.2
      simp [loopFrom, hs, attemptCount] at h2 ⊢
      omega

theorem loopFrom_noSuccess (backoff : ℚ) (attempts : Nat → AttemptOutcome) :
    ∀ (rem s : Nat),
      (∀ i, s ≤ i → i < s + rem → ∀ j, attempts i ≠ AttemptOutcome.success j) →
      (loopFrom backoff attempts s rem).resp = RespVal.emptyList := by
  intro rem
  induction rem with
  | zero => intro s _; rfl
  | succ n ih =>
    intro s h
    cases hA : attempts s with
    | timeout =>
      have := ih (s + 1) (fun i h1 h2 j => h i (by omega) (by omega) j)
      simp [loopFrom, hA, this]
    | failure => simp [loopFrom, hA]
    | success j => exact absurd hA (h s (le_refl s) (by omega) j)

theorem loopFrom_events_head (backoff : ℚ) (attempts : Nat → AttemptOutcome)
    (rem s : Nat) (h : 0 < rem) :
    ∃ tl, (loopFrom backoff attempts s rem).events = Event.attempt s :: tl := by
  cases rem with
  | zero => exact absurd h (by omega)
  | succ n =>
    match hA : attempts s with
    | AttemptOutcome.success j => exact ⟨[], by simp [loopFrom, hA]⟩
    | AttemptOutcome.failure => exact ⟨[], by simp [loopFrom, hA]⟩
    | AttemptOutcome.timeout =>
      exact ⟨Event.sleep (backoff * 2 ^ s) ::
        (loopFrom backoff attempts (s + 1) n).events, by simp [loopFrom, hA]⟩

theorem waitAfter_timeoutPrefix (backoff : ℚ)
    (attempts : Nat → AttemptOutcome) :
    ∀ (k s rem : Nat), k < rem →
      (∀ i, i ≤ k → attempts (s + i) = AttemptOutcome.timeout) →
      waitAfterAttempt (s + k) (loopFrom backoff attempts s rem).events
        = Option.some (backoff * 2 ^ (s + k)) := by
  intro k
  induction k with
  | zero =>
    intro s rem hk ht
    have hs : attempts s = AttemptOutcome.timeout := by
      simpa using ht 0 (le_refl 0)
    cases rem with
    | zero => omega
    | succ n => simp [loopFrom, hs, waitAfterAttempt]
  | succ k ih =>
    intro s rem hk ht
    have hs : attempts s = AttemptOutcome.timeout := by
      simpa using ht 0 (Nat.zero_le _)
    cases rem with
    | zero => omega
    | succ n =>
      have harith : s + (k + 1) = s + 1 + k := by omega
      have ihs := ih (s + 1) n (by omega) (fun i hi => by
        have h3 := ht (i + 1) (by omega)
        have h4 : s + (i + 1) = s + 1 + i := by omega
        rwa [h4] at h3)
      have hne : ¬(s = s + (k + 1)) := by omega
      rw [harith]
      simp only [loopFrom, hs]
      simp only [waitAfterAttempt, show ¬(s = s + 1 + k) from by omega,
        if_false, ite_false]
      exact ihs

theorem waitBefore_start (backoff : ℚ) (attempts : Nat → AttemptOutcome)
    (rem s : Nat) :
    waitBeforeAttempt s (loopFrom backoff attempts s rem).events
      = Option.none := by
  cases rem with
  | zero => rfl
  | succ n => cases hA : attempts s <;> simp [loopFrom, hA, waitBeforeAttempt]

theorem waitBefore_timeoutPrefix (backoff : ℚ)
    (attempts : Nat → AttemptOutcome) :
    ∀ (k s rem : Nat), k + 1 < rem →
      (∀ i, i ≤ k → attempts (s + i) = AttemptOutcome.timeout) →
      waitBeforeAttempt (s + k + 1) (loopFrom backoff attempts s rem).events
        = Option.some (backoff * 2 ^ (s + k)) := by
  intro k
  induction k with
  | zero =>
    intro s rem hk ht
    have hs : attempts s = AttemptOutcome.timeout := by
      simpa using ht 0 (le_refl 0)
    cases rem with
    | zero => omega
    | succ n =>
      have hn : 0 < n := by omega
      obtain ⟨tl, htl⟩ := loopFrom_events_head backoff attempts n (s + 1) hn
      simp only [loopFrom, hs]
      rw [htl]
      simp [waitBeforeAttempt, show ¬(s = s + 0 + 1) from by omega]
  | succ k ih =>
    intro s rem hk ht
    have hs : attempts s = AttemptOutcome.timeout := by
      simpa using ht 0 (Nat.zero_le _)
    cases rem with
    | zero => omega
    | succ n =>
      have hn : 0 < n := by omega
      obtain ⟨tl, htl⟩ := loopFrom_events_head backoff attempts n (s + 1) hn
      have ihs := ih (s + 1) n (by omega) (fun i hi => by
        have h3 := ht (i + 1) (by omega)
        have h4 : s + (i + 1) = s + 1 + i := by omega
        rwa [h4] at h3)
      rw [htl] at ihs
      have harith : s + (k + 1) + 1 = s + 1 + k + 1 := by omega
      have harith2 : s + (k + 1) = s + 1 + k := by omega
      rw [harith, harith2]
      simp only [loopFrom, hs]
      rw [htl]
      have hne1 : ¬(s = s + 1 + k + 1) := by omega
      have hne2 : ¬(s + 1 = s + 1 + k + 1) := by omega
      simp only [waitBeforeAttempt, hne1, hne2, if_false, ite_false] at ihs ⊢
      exact ihs

/-! ## Claim C6 -/

/-- Attempt outcomes of a pair whose every fetch attempt times out. -/
def allTimeoutAtt : Nat → AttemptOutcome := fun _ => AttemptOutcome.timeout

/-- C6: a pair whose fetch times out on every attempt performs exactly
`pair_retries` attempts and records an empty series for the pair; the
embedded task is total (both exception classes are caught and every path
assigns `resp`), so no exception is raised. -/
theorem C6_timeout_exhaustion (retries : Nat) (backoff : ℚ)
    (attempts : Nat → AttemptOutcome)
    (h : ∀ i, i < retries → attempts i = AttemptOutcome.timeout) :
    attemptCount (loopFrom backoff attempts 0 retries).events = retries
    ∧ getSinglePair retries backoff attempts = [] := by
  have hall := loopFrom_allTimeout backoff attempts retries 0
    (fun i h1 h2 => h i (by omega))
  refine ⟨hall.2, ?_⟩
  unfold getSinglePair
  rw [hall.1]
  rfl

theorem C6_timeout_exhaustion_witness :
    (∀ i, i < 3 → allTimeoutAtt i = AttemptOutcome.timeout)
    ∧ (attemptCount (loopFrom 1 allTimeoutAtt 0 3).events = 3
      ∧ getSinglePair 3 1 allTimeoutAtt = []) :=
  ⟨fun _ _ => rfl, C6_timeout_exhaustion 3 1 allTimeoutAtt (fun _ _ => rfl)⟩

/-! ## Claim C7 -/

/-- C7 counterexample: with `init_backoff = 1` and every attempt timing out
(`pair_retries = 2`), the wait inserted before attempt 1 is
`1 = init_backoff · 2⁰`, whereas the claim mandates
`init_backoff · 2¹ = 2`. -/
theorem C7_wait_before_attempt_counterexample :
    waitBeforeAttempt 1 (loopFrom 1 allTimeoutAtt 0 2).events = Option.some 1
    ∧ Option.some (1 : ℚ) ≠ Option.some ((1 : ℚ) * 2 ^ 1) :=
  ⟨by with_unfolding_all rfl, by with_unfolding_all decide⟩

/-- C7 (amended): in the per-pair retry loop the wait is inserted AFTER the
failed attempt: when attempts 0..k all time out, the sleep directly following
attempt `k` is `init_backoff · 2^k` — equivalently, there is no wait before
attempt 0, and the wait before attempt `k+1` (when that attempt happens) is
`init_backoff · 2^k`. -/
theorem C7_backoff_growth (retries : Nat) (backoff : ℚ)
    (attempts : Nat → AttemptOutcome) (k : Nat) (hk : k < retries)
    (ht : ∀ i, i ≤ k → attempts i = AttemptOutcome.timeout) :
    waitAfterAttempt k (loopFrom backoff attempts 0 retries).events
      = Option.some (backoff * 2 ^ k)
    ∧ waitBeforeAttempt 0 (loopFrom backoff attempts 0 retries).events
      = Option.none
    ∧ (k + 1 < retries →
        waitBeforeAttempt (k + 1) (loopFrom backoff attempts 0 retries).events
          = Option.some (backoff * 2 ^ k)) := by
  have ht0 : ∀ i, i ≤ k → attempts (0 + i) = AttemptOutcome.timeout := by
    intro i hi
    simpa using ht i hi
  refine ⟨?_, ?_, ?_⟩
  · have := waitAfter_timeoutPrefix backoff attempts k 0 retries hk ht0
    simpa using this
  · exact waitBefore_start backoff attempts retries 0
  · intro hk2
    have := waitBefore_timeoutPrefix backoff attempts k 0 retries hk2 ht0
    simpa using this

theorem C7_backoff_growth_witness :
    (0 < 2 ∧ (∀ i, i ≤ 0 → allTimeoutAtt i = AttemptOutcome.timeout))
    ∧ (waitAfterAttempt 0 (loopFrom 1 allTimeoutAtt 0 2).events
        = Option.some (1 * 2 ^ 0)
      ∧ waitBeforeAttempt 0 (loopFrom 1 allTimeoutAtt 0 2).events
        = Option.none
      ∧ (0 + 1 < 2 →
          waitBeforeAttempt (0 + 1) (loopFrom 1 allTimeoutAtt 0 2).events
            = Option.some (1 * 2 ^ 0))) :=
  ⟨⟨by decide, fun _ _ => rfl⟩,
   C7_backoff_growth 2 1 allTimeoutAtt 0 (by decide) (fun _ _ => rfl)⟩

/-! ## Claim C5 -/

theorem foldl_dictSet_preserve {α : Type} (f : String → α) :
    ∀ (pairs : List String) (acc : List (String × α)) (p : String),
      p ∉ pairs →
      dictGet (pairs.foldl (fun r q => dictSet r q (f q)) acc) p
        = dictGet acc p := by
  intro pairs
  induction pairs with
  | nil => intro acc p _; rfl
  | cons hd tl ih =>
    intro acc p h
    have h1 : p ≠ hd := fun hh => h (by simp [hh])
    have h2 : p ∉ tl := fun hh => h (by simp [hh])
    simp only [List.foldl_cons]
    rw [ih _ _ h2, dictGet_dictSet_ne _ _ _ _ h1]

theorem foldl_dictSet_keys {α : Type} (f : String → α) :
    ∀ (pairs : List String) (acc : List (String × α)),
      pairs.Nodup → (∀ p ∈ pairs, p ∉ dictKeys acc) →
      dictKeys (pairs.foldl (fun r q => dictSet r q (f q)) acc)
        = dictKeys acc ++ pairs := by
  intro pairs
  induction pairs with
  | nil => intro acc _ _; simp
  | cons hd tl ih =>
    intro acc hnd hfresh
    have hhd : hd ∉ dictKeys acc := hfresh hd (by simp)
    have hkeys := dictKeys_dictSet_of_notMem acc hd (f hd) hhd
    have htl : ∀ p ∈ tl, p ∉ dictKeys (dictSet acc hd (f hd)) := by
      intro p hp
      rw [hkeys]
      have hp1 : p ∉ dictKeys acc := hfresh p (by simp [hp])
      have hp2 : p ≠ hd := by
        intro hh
        rw [List.nodup_cons] at hnd
        exact hnd.1 (hh ▸ hp)
      simp [hp1, hp2]
    have := ih (dictSet acc hd (f hd)) (List.nodup_cons.mp hnd).2 htl
    simp only [List.foldl_cons]
    rw [this, hkeys]
    simp

theorem foldl_dictSet_get {α : Type} (f : String → α) :
    ∀ (pairs : List String) (acc : List (String × α)),
      pairs.Nodup → (∀ p ∈ pairs, p ∉ dictKeys acc) →
      ∀ p ∈ pairs,
        dictGet (pairs.foldl (fun r q => dictSet r q (f q)) acc) p
          = Option.some (f p) := by
  intro pairs
  induction pairs with
  | nil => intro acc _ _ p hp; cases hp
  | cons hd tl ih =>
    intro acc hnd hfresh p hp
    simp only [List.foldl_cons]
    rcases List.mem_cons.mp hp with heq | htlmem
    · subst heq
      have hpn : p ∉ tl := (List.nodup_cons.mp hnd).1
      rw [foldl_dictSet_preserve f tl _ p hpn, dictGet_dictSet_self]
    · have hhd : hd ∉ dictKeys acc := hfresh hd (by simp)
      have hkeys := dictKeys_dictSet_of_notMem acc hd (f hd) hhd
      have htl : ∀ q ∈ tl, q ∉ dictKeys (dictSet acc hd (f hd)) := by
        intro q hq
        rw [hkeys]
        have hq1 : q ∉ dictKeys acc := hfresh q (by simp [hq])
        have hq2 : q ≠ hd := by
          intro hh
          rw [List.nodup_cons] at hnd
          exact hnd.1 (hh ▸ hq)
        simp [hq1, hq2]
      exact ih (dictSet acc hd (f hd)) (List.nodup_cons.mp hnd).2 htl p htlmem

/-- C5: for every set of requested pairs (no duplicates) and every pattern of
per-pair attempt outcomes, the map returned by `fetch_pairs_klines` has
exactly the requested pairs as keys, in particular exactly one entry per
pair; each entry holds the total per-pair task result (so no per-pair failure
escapes as an exception), and a pair none of whose attempts succeeds is
recorded as the empty series. -/
theorem C5_batch_completeness (pairs : List String) (retries : Nat)
    (backoff : ℚ) (attempts : String → Nat → AttemptOutcome)
    (hnd : pairs.Nodup) :
    dictKeys (fetchPairsKlines pairs retries backoff attempts) = pairs
    ∧ (∀ p ∈ pairs,
        dictGet (fetchPairsKlines pairs retries backoff attempts) p
          = Option.some (getSinglePair retries backoff (attempts p)))
    ∧ (∀ p ∈ pairs,
        (∀ i, i < retries → ∀ j, attempts p i ≠ AttemptOutcome.success j) →
        dictGet (fetchPairsKlines pairs retries backoff attempts) p
          = Option.some []) := by
  have hempty : ∀ p ∈ pairs,
      p ∉ dictKeys ([] : List (String × List (List ℚ))) := by
    intro p _
    simp [dictKeys]
  refine ⟨?_, ?_, ?_⟩
  · have := foldl_dictSet_keys
      (fun p => getSinglePair retries backoff (attempts p)) pairs [] hnd hempty
    simpa [fetchPairsKlines, dictKeys] using this
  · intro p hp
    exact foldl_dictSet_get
      (fun p => getSinglePair retries backoff (attempts p)) pairs [] hnd hempty p hp
  · intro p hp hfail
    have h1 := foldl_dictSet_get
      (fun p => getSinglePair retries backoff (attempts p)) pairs [] hnd hempty p hp
    have h2 : getSinglePair retries backoff (attempts p) = [] := by
      unfold getSinglePair
      rw [loopFrom_noSuccess backoff (attempts p) retries 0
        (fun i hi1 hi2 j => hfail i (by omega) j)]
      rfl
    have h1' : dictGet (fetchPairsKlines pairs retries backoff attempts) p
        = Option.some (getSinglePair retries backoff (attempts p)) := h1
    rw [h2] at h1'
    exact h1'

/-- Attempt outcomes in which every attempt of every pair fails with a
non-timeout error. -/
def alwaysFailAtt : String → Nat → AttemptOutcome := fun _ _ =>
  AttemptOutcome.failure

theorem C5_batch_completeness_witness :
    (["ETH-USDT", "ADA-ETH"] : List String).Nodup
    ∧ (dictKeys (fetchPairsKlines ["ETH-USDT", "ADA-ETH"] 3 1 alwaysFailAtt)
        = ["ETH-USDT", "ADA-ETH"]
      ∧ (∀ p ∈ (["ETH-USDT", "ADA-ETH"] : List String),
          dictGet (fetchPairsKlines ["ETH-USDT", "ADA-ETH"] 3 1 alwaysFailAtt) p
            = Option.some (getSinglePair 3 1 (alwaysFailAtt p)))
      ∧ (∀ p ∈ (["ETH-USDT", "ADA-ETH"] : List String),
          (∀ i, i < 3 → ∀ j, alwaysFailAtt p i ≠ AttemptOutcome.success j) →
          dictGet (fetchPairsKlines ["ETH-USDT", "ADA-ETH"] 3 1 alwaysFailAtt) p
            = Option.some [])) :=
  ⟨by decide, C5_batch_completeness ["ETH-USDT", "ADA-ETH"] 3 1 alwaysFailAtt
    (by decide)⟩

/-! ## More dict lemmas -/

theorem dictGet_eq_none {α : Type} (d : List (String × α)) (k : String)
    (h : k ∉ dictKeys d) : dictGet d k = Option.none := by
  induction d with
  | nil => rfl
  | cons hd tl ih =>
    have h1 : hd.1 ≠ k := by
      intro hh
      exact h (by simp [dictKeys, hh])
    have h2 : k ∉ dictKeys tl := by
      intro hh
      refine h ?_
      simp [dictKeys] at hh ⊢
      exact Or.inr hh
    rw [dictGet_cons, if_neg h1]
    exact ih h2

theorem dictGet_ne_nil {α : Type} {d : List (String × α)} {k : String}
    {v : α} (h : dictGet d k = Option.some v) : d ≠ [] := by
  intro hh
  subst hh
  cases h

theorem dictGet_dictPop_ne {α : Type} (d : List (String × α)) (k k' : String)
    (h : k' ≠ k) : dictGet (dictPop d k) k' = dictGet d k' := by
  induction d with
  | nil => rfl
  | cons hd tl ih =>
    by_cases hh : hd.1 = k
    · have hstep : dictPop (hd :: tl) k = dictPop tl k := by
        simp [dictPop, List.filter_cons, hh]
      rw [hstep, ih, dictGet_cons,
        if_neg (show ¬hd.1 = k' from by rw [hh]; exact fun hhh => h hhh.symm)]
    · have hstep : dictPop (hd :: tl) k = hd :: dictPop tl k := by
        simp [dictPop, List.filter_cons, hh]
      rw [hstep, dictGet_cons, dictGet_cons]
      by_cases hx : hd.1 = k' <;> simp [hx, ih]

theorem mem_dictSet_of_ne {α : Type} {d : List (String × α)} {k : String}
    {v : α} (kk : String) (vv : α) (h : (k, v) ∈ d) (hne : k ≠ kk) :
    (k, v) ∈ dictSet d kk vv := by
  induction d with
  | nil => cases h
  | cons hd tl ih =>
    rcases List.mem_cons.mp h with heq | htl
    · subst heq
      have : ¬((k, v).1 = kk) := hne
      simp [dictSet, this]
    · by_cases hh : hd.1 = kk
      · simp [dictSet, hh]
        exact Or.inr htl
      · simp [dictSet, hh]
        exact Or.inr (ih htl)

theorem mem_of_mem_dictSet_ne {α : Type} {d : List (String × α)} {k : String}
    {v : α} {kk : String} {vv : α} (h : (k, v) ∈ dictSet d kk vv)
    (hne : k ≠ kk) : (k, v) ∈ d := by
  induction d with
  | nil =>
    simp [dictSet] at h
    exact absurd h.1 hne
  | cons hd tl ih =>
    by_cases hh : hd.1 = kk
    · simp [dictSet, hh] at h
      rcases h with heq | htl
      · exact absurd heq.1 hne
      · exact List.mem_cons_of_mem _ htl
    · simp [dictSet, hh] at h
      rcases h with heq | htl
      · exact heq ▸ List.mem_cons_self _ _
      · exact List.mem_cons_of_mem _ (ih htl)

theorem mem_orderParams_iff (d : List (String × PVal)) (k : String) (v : PVal)
    (h : k ≠ "signature") :
    (k, v) ∈ orderParams d ↔ (k, v) ∈ d := by
  have hperm := List.mergeSort_perm
    (d.filter (fun kv => kv.1 ≠ "signature"))
    (fun a b : String × PVal => a.1 ≤ b.1)
  have hms : (k, v) ∈ (d.filter (fun kv => kv.1 ≠ "signature")).mergeSort
      (fun a b : String × PVal => a.1 ≤ b.1) ↔ (k, v) ∈ d := by
    rw [hperm.mem_iff, List.mem_filter]
    constructor
    · exact fun hh => hh.1
    · exact fun hh => ⟨hh, by simpa using h⟩
  unfold orderParams
  match hsig : dictGet d "signature" with
  | Option.some v0 =>
    simp only [List.mem_append, List.mem_singleton]
    rw [hms]
    constructor
    · intro hh
      rcases hh with hh | hh
      · exact hh
      · exact absurd (congrArg Prod.fst hh) h
    · exact fun hh => Or.inl hh
  | Option.none => exact hms

theorem dictGet_dictUpdate_notMem {α : Type} :
    ∀ (o d : List (String × α)) (k : String), k ∉ dictKeys o →
      dictGet (dictUpdate d o) k = dictGet d k := by
  intro o
  induction o with
  | nil => intro d k _; rfl
  | cons x o' ih =>
    intro d k h
    have h1 : k ≠ x.1 := by
      intro hh
      exact h (by simp [dictKeys, hh])
    have h2 : k ∉ dictKeys o' := by
      intro hh
      refine h ?_
      simp [dictKeys] at hh ⊢
      exact Or.inr hh
    show dictGet (dictUpdate (dictSet d x.1 x.2) o') k = dictGet d k
    rw [ih _ _ h2, dictGet_dictSet_ne _ _ _ _ h1]

theorem dictGet_dictUpdate {α : Type} :
    ∀ (o d : List (String × α)) (k : String), (dictKeys o).Nodup →
      dictGet (dictUpdate d o) k
        = (match dictGet o k with
          | Option.some v => Option.some v
          | Option.none => dictGet d k) := by
  intro o
  induction o with
  | nil => intro d k _; rfl
  | cons x o' ih =>
    intro d k hnd
    have hnd2 : (x.1 :: dictKeys o').Nodup := hnd
    have hx : x.1 ∉ dictKeys o' := (List.nodup_cons.mp hnd2).1
    have hnd' : (dictKeys o').Nodup := (List.nodup_cons.mp hnd2).2
    show dictGet (dictUpdate (dictSet d x.1 x.2) o') k = _
    by_cases hk : x.1 = k
    · subst hk
      rw [dictGet_dictUpdate_notMem o' _ _ hx, dictGet_dictSet_self,
        dictGet_cons, if_pos rfl]
    · rw [ih _ _ hnd', dictGet_cons, if_neg hk,
        dictGet_dictSet_ne _ _ _ _ (Ne.symm hk)]

/-! ## Claim C1 -/

/-- Responses for the C1 evaluation.  Reference pair ETH-USDT has one row
with open 100, high 101, low 99, close 110, closeTime 17; the donor pair
ADA-USDT has open 5, high 7, low 4, close 6, closeTime 17; ADA-ETH failed. -/
def c1resp : List (String × List (List ℚ)) :=
  [("ETH-USDT", [[100, 101, 99, 110, 17]]),
   ("ADA-USDT", [[5, 7, 4, 6, 17]]),
   ("ADA-ETH", [])]

/-- C1: at the concrete input above, `fill_missing_pairs` synthesizes the row
`[round(donor.open / reference.open, 9), reference.high]`, i.e.
`[5/100, 101] = [0.05, 101]`, whereas the claim mandates
`[round(donor.close / reference.close, 9), reference.closeTime]`, i.e.
`[round9 (6/110), 17] = [0.054545455, 17]`.  The code's own docstring and
inline comment say it combines the close prices, but it indexes column 0
(open) of the 5-column rows and pairs the ratio with column 1 (high) of the
reference row instead of column 4 (closeTime). -/
theorem C1_reconstruction_row_divergence :
    fillMissingPairs c1resp = Except.ok
      [("ETH-USDT", [[100, 101, 99, 110, 17]]),
       ("ADA-USDT", [[5, 7, 4, 6, 17]]),
       ("ADA-ETH", [[1/20, 101]])]
    ∧ round9 ((6 : ℚ)/110) = 54545455/1000000000
    ∧ ([[(1 : ℚ)/20, 101]] : List (List ℚ)) ≠ [[round9 ((6 : ℚ)/110), 17]] :=
  ⟨by with_unfolding_all rfl, by with_unfolding_all rfl,
   by with_unfolding_all decide⟩

/-! ## Claim C2 -/

/-- Responses in which the reference pair is present but its series is
empty. -/
def c2resp : List (String × List (List ℚ)) :=
  [("ETH-USDT", []), ("BTC-USDT", [[1, 2, 3, 4, 5]])]

/-- C2 counterexample: with the reference pair present but empty,
`fill_missing_pairs` completes without signalling any error (it returns the
map unchanged here), contradicting the claim that an empty reference series
is fatal. -/
theorem C2_empty_reference_not_fatal :
    fillMissingPairs c2resp = Except.ok c2resp := by
  with_unfolding_all rfl

/-- C2 (amended): the reconstruction step raises a fatal error (the re-raised
`KeyError`) exactly when the reference pair ETH-USDT is absent from the map;
when the key is present — even with an empty series — it completes without
error. -/
theorem C2_reference_error_iff_absent
    (responses : List (String × List (List ℚ))) :
    (∃ e, fillMissingPairs responses = Except.error e) ↔
      dictGet responses "ETH-USDT" = Option.none := by
  unfold fillMissingPairs
  cases h : dictGet responses "ETH-USDT" with
  | none => simp
  | some v => simp

/-! ## Claim C3 -/

/-- Modelled from the amended claim: the lookback duration, when truthy,
takes precedence and yields `toTime = now − 0.5 s`,
`fromTime = toTime − n_mins minutes`; the explicit window is used only when
no duration is configured; a configuration error is raised when neither is
supplied. -/
def effectiveWindowAmended (cfg : FetcherConfig) (nowMs : Int) :
    Except String (Int × Int) :=
  if truthyOptQ cfg.n_mins then
    Except.ok (qfloor ((nowMs : ℚ) - 500 - (cfg.n_mins.getD 0) * 60000),
      qfloor ((nowMs : ℚ) - 500))
  else if truthyOptInt cfg.fromTime && truthyOptInt cfg.toTime then
    Except.ok (cfg.fromTime.getD 0, cfg.toTime.getD 0)
  else Except.error "fromTime and toTime or n_mins are required."

/-- Configuration with BOTH an explicit window (1000, 2000) and a lookback
duration of 5 minutes. -/
def c3cfg : FetcherConfig :=
  ⟨Option.some 1000, Option.some 2000, Option.some 5⟩

/-- C3 counterexample: with an explicit window (1000, 2000) and a duration of
5 minutes both configured, the effective window at `now = 10⁹ ms` is the
now-based one, not the explicit window the claim mandates. -/
theorem C3_duration_overrides_explicit_window :
    getBackwardsRange c3cfg 1000000000 = Except.ok (999699500, 999999500)
    ∧ ((999699500 : ℤ), (999999500 : ℤ)) ≠ ((1000 : ℤ), (2000 : ℤ)) :=
  ⟨by with_unfolding_all rfl, by decide⟩

/-- C3 (amended): `get_backwards_range` computes exactly the duration-first
effective window: the now-based window whenever `n_mins` is truthy (even if
an explicit window was also given), the explicit window when `n_mins` is
falsy and both endpoints are truthy, and a configuration error otherwise. -/
theorem C3_effective_window_resolution (cfg : FetcherConfig) (nowMs : Int) :
    getBackwardsRange cfg nowMs = effectiveWindowAmended cfg nowMs := by
  unfold getBackwardsRange effectiveWindowAmended
  cases h : truthyOptQ cfg.n_mins <;> simp [h]

/-! ## Embedding of `_handle_response` (client.py lines 140-153) -/

/-- Errors raised by `_handle_response`: `BinanceAPIException` on a
non-success status (when exception-raising is enabled) and
`BinanceRequestException` when the body does not decode as JSON. -/
inductive HErr : Type where
  | apiError (status : Nat) : HErr
  | requestError (text : String) : HErr
deriving Repr, DecidableEq

/-- A value `_handle_response` could conceivably return: the decoded JSON
body, or (as the claim would have it for the opt-out path) the raw body
text. -/
inductive HRes (J : Type) : Type where
  | json (j : J) : HRes J
  | raw (t : String) : HRes J
deriving Repr, DecidableEq

/-- The HTTP response the dispatcher stored in `self.response`: status code,
raw body text, and its JSON decoding when the body is valid JSON
(`response.json()` raises `ValueError` exactly when `jsonBody` is `none`). -/
structure HttpResponse (J : Type) : Type where
  status : Nat
  text : String
  jsonBody : Option J

/-- `_handle_response(throw_exception)`: when exception-raising is enabled
and the status is outside `[200, 300)`, raise the API error; otherwise
return `response.json()`, turning a JSON decode failure into the
malformed-response error. -/
def handleResponse {J : Type} (throwExc : Bool) (r : HttpResponse J) :
    Except HErr (HRes J) :=
  if throwExc = true ∧ ¬(200 ≤ r.status ∧ r.status < 300) then
    Except.error (HErr.apiError r.status)
  else
    match r.jsonBody with
    | Option.some j => Except.ok (HRes.json j)
    | Option.none => Except.error (HErr.requestError r.text)

/-- A 500 response whose body is decodable JSON. -/
def c8resp : HttpResponse String :=
  ⟨500, "code:-1121", Option.some "decoded-error-object"⟩

/-- C8 counterexample: a non-success response handled with
exception-raising opted out returns the decoded JSON body, not the raw
response text the claim mandates. -/
theorem C8_optout_returns_decoded_json :
    handleResponse false c8resp = Except.ok (HRes.json "decoded-error-object")
    ∧ handleResponse false c8resp ≠ Except.ok (HRes.raw "code:-1121") :=
  ⟨by decide, by decide⟩

/-- Modelled from the amended claim: classify by status first; a success
status yields the decoded JSON body; a non-success status raises the API
error when exception-raising is enabled, and otherwise yields the decoded
JSON body exactly like the success path; in both decoding positions a body
that fails to decode raises the malformed-response error. -/
def handleResponseAmended {J : Type} (throwExc : Bool) (r : HttpResponse J) :
    Except HErr (HRes J) :=
  if 200 ≤ r.status ∧ r.status < 300 then
    match r.jsonBody with
    | Option.some j => Except.ok (HRes.json j)
    | Option.none => Except.error (HErr.requestError r.text)
  else if throwExc then Except.error (HErr.apiError r.status)
  else
    match r.jsonBody with
    | Option.some j => Except.ok (HRes.json j)
    | Option.none => Except.error (HErr.requestError r.text)

/-- C8 (amended): `_handle_response` implements exactly the status-first
classification above — in particular the opt-out path returns the decoded
JSON body (or raises the malformed-response error), never the raw text. -/
theorem C8_response_classification {J : Type} (throwExc : Bool)
    (r : HttpResponse J) :
    handleResponse throwExc r = handleResponseAmended throwExc r := by
  unfold handleResponse handleResponseAmended
  by_cases hst : 200 ≤ r.status ∧ r.status < 300
  · cases throwExc <;> simp [hst]
  · cases throwExc <;> simp [hst]

/-! ## Embedding of `_request` (client.py lines 155-231)

The embedding follows the Python statement order.  The Python local `data`
aliases the object stored at `kwargs["data"]`; the embedding reads the
current `kwargs["data"]` at each access, which coincides with the aliasing
semantics as long as no `requests_params` update rebinds the `"data"` key
(the theorems below assume exactly that). -/

/-- `_generate_signature` (lines 127-138): refuse to sign without a secret,
otherwise MAC the canonical query string.  `mac` abstracts
`hmac.new(secret, msg, sha256).hexdigest()`. -/
def generateSignature (mac : String → String → String) (secret : Option String)
    (data : List (String × PVal)) : Except String String :=
  match secret with
  | Option.none => Except.error "Api secret not configured"
  | Option.some s =>
    if s = "" then Except.error "Api secret not configured"
    else Except.ok (mac s (renderParams (orderParams data)))

/-- Lines 173-178: `kwargs.pop("api_key")` then `kwargs.pop("api_secret")`;
when the first pop raises `KeyError` nothing is removed (and the second pop
never runs). -/
def popCredentials (kwargs0 : List (String × PVal)) : List (String × PVal) :=
  if (dictGet kwargs0 "api_key").isSome then
    dictPop (dictPop kwargs0 "api_key") "api_secret"
  else kwargs0

/-- Lines 179-188: both popped credentials truthy replaces the standing
secret (the session reset itself has no effect on the request parameters).
In practice credentials are strings; a truthy non-string `api_secret` would
fail later inside `hmac.new` and is outside every claim's scope. -/
def effectiveSecret (secret : Option String) (kwargs0 : List (String × PVal)) :
    Option String :=
  let apiKeyOpt := dictGet kwargs0 "api_key"
  let apiSecretOpt :=
    if apiKeyOpt.isSome then dictGet kwargs0 "api_secret" else Option.none
  if pvalTruthy (apiKeyOpt.getD PVal.null)
      && pvalTruthy (apiSecretOpt.getD PVal.null) then
    match apiSecretOpt with
    | Option.some (PVal.str s) => Option.some s
    | _ => secret
  else secret

/-- Lines 190-195: force the default timeout of 10, then overlay the
instance-level `requests_params` when truthy. -/
def preludeStep (requestsParams : Option (List (String × PVal)))
    (kwargs1 : List (String × PVal)) : List (String × PVal) :=
  let kwargs2 := dictSet kwargs1 "timeout" (PVal.int 10)
  match requestsParams with
  | Option.some rp => if rp.isEmpty then kwargs2 else dictUpdate kwargs2 rp
  | Option.none => kwargs2

/-- Lines 197-204: when `data` is a truthy dict containing
`requests_params`, pop that entry out of the data dict and merge it into
`kwargs` (a non-dict value passed to `kwargs.update` raises `TypeError`). -/
def mergeEmbeddedParams (kwargs3 : List (String × PVal)) :
    Except String (List (String × PVal)) :=
  match dictGet kwargs3 "data" with
  | Option.some (PVal.dict d) =>
    if d.isEmpty then Except.ok kwargs3
    else
      match dictGet d "requests_params" with
      | Option.none => Except.ok kwargs3
      | Option.some (PVal.dict rpd) =>
        Except.ok (dictUpdate
          (dictSet kwargs3 "data" (PVal.dict (dictPop d "requests_params")))
          rpd)
      | Option.some _ => Except.error "TypeError: kwargs.update"
  | _ => Except.ok kwargs3

/-- Lines 206-209: for a signed request, write the timestamp into the data
dict, sign the dict including the timestamp, and write the signature into
the data dict.  The second component records the exact canonical string the
MAC was computed over.  A signed request without a dict at `kwargs["data"]`
raises (`KeyError`/`TypeError`). -/
def signStep (mac : String → String → String) (secret : Option String)
    (ts : Int) (signed : Bool) (kwargs : List (String × PVal)) :
    Except String (List (String × PVal) × Option String) :=
  if signed = false then Except.ok (kwargs, Option.none)
  else
    match dictGet kwargs "data" with
    | Option.some (PVal.dict d) =>
      let d1 := dictSet d "timestamp" (PVal.int ts)
      match generateSignature mac secret d1 with
      | Except.error e => Except.error e
      | Except.ok sig =>
        Except.ok (dictSet kwargs "data"
            (PVal.dict (dictSet d1 "signature" (PVal.str sig))),
          Option.some (renderParams (orderParams d1)))
    | _ => Except.error "KeyError: data"

/-- Lines 211-227: when `data` is truthy, order the parameters, drop the
null-valued entries, store the tuple list back at `kwargs["data"]`, and for
GET requests (or ordered `force_params`) render them into `kwargs["params"]`
and delete `kwargs["data"]`.  The second component is the transmitted
parameter list.  (`_order_params` on a truthy non-dict raises
`AttributeError`.) -/
def transmitStep (method : String) (forceParams : Bool)
    (kwargs : List (String × PVal)) :
    Except String (List (String × PVal) × Option (List (String × PVal))) :=
  match dictGet kwargs "data" with
  | Option.none => Except.ok (kwargs, Option.none)
  | Option.some dv =>
    if pvalTruthy dv = false then Except.ok (kwargs, Option.none)
    else
      match dv with
      | PVal.dict d =>
        let stripped := (orderParams d).filter (fun kv =>
          match kv.2 with
          | PVal.null => false
          | _ => true)
        let kwargsA := dictSet kwargs "data" (PVal.pairs stripped)
        if method = "get" || forceParams then
          Except.ok (dictPop
              (dictSet kwargsA "params" (PVal.str (renderParams stripped)))
              "data",
            Option.some stripped)
        else Except.ok (kwargsA, Option.some stripped)
      | _ => Except.error "AttributeError: items"

/-- Outcome of preparing one request: the final keyword arguments handed to
`requests`, the canonical string that was signed (for signed requests), and
the ordered, null-stripped parameter list that is transmitted (when `data`
was truthy). -/
structure DispatchPrep : Type where
  kwargs : List (String × PVal)
  signedString : Option String
  transmitted : Option (List (String × PVal))
deriving Repr

/-- `_request` up to the transport call (lines 172-227), composed in the
Python statement order. -/
def requestPipeline (mac : String → String → String) (secret : Option String)
    (requestsParams : Option (List (String × PVal))) (ts : Int)
    (method : String) (signed : Bool) (forceParams : Bool)
    (kwargs0 : List (String × PVal)) : Except String DispatchPrep :=
  let secret1 := effectiveSecret secret kwargs0
  let kwargs3 := preludeStep requestsParams (popCredentials kwargs0)
  match mergeEmbeddedParams kwargs3 with
  | Except.error e => Except.error e
  | Except.ok kwargs4 =>
    match signStep mac secret1 ts signed kwargs4 with
    | Except.error e => Except.error e
    | Except.ok (kwargs5, signedStr) =>
      match transmitStep method forceParams kwargs5 with
      | Except.error e => Except.error e
      | Except.ok (kwargs6, transmitted) =>
        Except.ok ⟨kwargs6, signedStr, transmitted⟩

theorem dictGet_nil {α : Type} (k : String) :
    dictGet ([] : List (String × α)) k = Option.none := rfl

theorem dictSet_isEmpty {α : Type} (d : List (String × α)) (k : String)
    (v : α) : (dictSet d k v).isEmpty = false := by
  cases d with
  | nil => rfl
  | cons hd tl => by_cases hh : hd.1 = k <;> simp [dictSet, hh]

theorem transmitStep_timeout (method : String) (forceParams : Bool)
    (kwargs : List (String × PVal)) (dd : List (String × PVal))
    (h : dictGet kwargs "data" = Option.some (PVal.dict dd)) :
    ∃ kw t, transmitStep method forceParams kwargs = Except.ok (kw, t)
      ∧ dictGet kw "timeout" = dictGet kwargs "timeout" := by
  unfold transmitStep
  rw [h]
  cases htr : pvalTruthy (PVal.dict dd) with
  | false =>
    simp only [htr]
    exact ⟨kwargs, Option.none, rfl, rfl⟩
  | true =>
    simp [htr]
    by_cases hget : method = "get" ∨ forceParams = true
    · rw [if_pos hget]
      refine ⟨_, ⟨_, rfl⟩, ?_⟩
      rw [dictGet_dictPop_ne _ _ _ (by decide),
        dictGet_dictSet_ne _ _ _ _ (by decide),
        dictGet_dictSet_ne _ _ _ _ (by decide)]
    · rw [if_neg hget]
      refine ⟨_, ⟨_, rfl⟩, ?_⟩
      rw [dictGet_dictSet_ne _ _ _ _ (by decide)]

/-! ## Claim C9 -/

/-- C9: for every signed GET request whose data dict contains a null-valued
parameter `k` (and no caller-supplied `signature`/`timestamp`/
`requests_params` entries), the canonical string handed to the MAC is the
rendering of the ordered data-with-timestamp list, which still contains
`(k, None)` — rendered as `k=None` — while the transmitted parameter list
contains no entry for `k` at all; in particular the signed list and the
transmitted list differ. -/
theorem C9_null_param_signed_but_not_transmitted
    (mac : String → String → String) (s : String) (ts : Int)
    (d : List (String × PVal)) (k : String)
    (hs : ¬(s = ""))
    (hnd : (dictKeys d).Nodup)
    (hsig : "signature" ∉ dictKeys d)
    (hts : "timestamp" ∉ dictKeys d)
    (hrp : "requests_params" ∉ dictKeys d)
    (hmem : (k, PVal.null) ∈ d) :
    ∃ prep : DispatchPrep,
      requestPipeline mac (Option.some s) Option.none ts "get" true false
          [("data", PVal.dict d)] = Except.ok prep
      ∧ prep.signedString
          = Option.some (renderParams
              (orderParams (dictSet d "timestamp" (PVal.int ts))))
      ∧ (k, PVal.null) ∈ orderParams (dictSet d "timestamp" (PVal.int ts))
      ∧ (k ++ "=None") ∈ (orderParams
            (dictSet d "timestamp" (PVal.int ts))).map
          (fun kv => kv.1 ++ "=" ++ renderVal kv.2)
      ∧ ∃ tl, prep.transmitted = Option.some tl
        ∧ (∀ v, (k, v) ∉ tl)
        ∧ orderParams (dictSet d "timestamp" (PVal.int ts)) ≠ tl := by
  have hie : d.isEmpty = false := by
    cases d with
    | nil => cases hmem
    | cons a l => rfl
  have hrpn : dictGet d "requests_params" = Option.none :=
    dictGet_eq_none _ _ hrp
  have hkin : k ∈ dictKeys d := by
    have := List.mem_map_of_mem Prod.fst hmem
    exact this
  have hksig : k ≠ "signature" := fun hh => hsig (hh ▸ hkin)
  have hkts : k ≠ "timestamp" := fun hh => hts (hh ▸ hkin)
  have hpipe : requestPipeline mac (Option.some s) Option.none ts "get" true
      false [("data", PVal.dict d)]
      = Except.ok ⟨[("timeout", PVal.int 10),
          ("params", PVal.str (renderParams ((orderParams (dictSet (dictSet d
            "timestamp" (PVal.int ts)) "signature" (PVal.str (mac s
            (renderParams (orderParams (dictSet d "timestamp"
            (PVal.int ts)))))))).filter (fun kv =>
              match kv.2 with
              | PVal.null => false
              | _ => true))))],
        Option.some (renderParams
          (orderParams (dictSet d "timestamp" (PVal.int ts)))),
        Option.some ((orderParams (dictSet (dictSet d "timestamp"
          (PVal.int ts)) "signature" (PVal.str (mac s (renderParams
          (orderParams (dictSet d "timestamp" (PVal.int ts)))))))).filter
          (fun kv =>
            match kv.2 with
            | PVal.null => false
            | _ => true))⟩ := by
    simp [requestPipeline, popCredentials, effectiveSecret, preludeStep,
      mergeEmbeddedParams, signStep, generateSignature, transmitStep,
      dictGet_cons, dictGet_nil, hie, hrpn, hs, pvalTruthy, dictSet, dictPop,
      dictSet_isEmpty]
  have hb : (k, PVal.null) ∈ orderParams (dictSet d "timestamp"
      (PVal.int ts)) :=
    (mem_orderParams_iff _ _ _ hksig).mpr
      (mem_dictSet_of_ne _ _ hmem hkts)
  refine ⟨_, hpipe, rfl, hb, ?_, ?_⟩
  · have hmm := List.mem_map_of_mem
      (fun kv : String × PVal => kv.1 ++ "=" ++ renderVal kv.2) hb
    have hr : k ++ "=" ++ renderVal PVal.null = k ++ "=None" := by
      rw [String.append_assoc]
      exact congrArg (fun t => k ++ t) (by decide)
    have hmm2 : k ++ "=" ++ renderVal PVal.null ∈ (orderParams
        (dictSet d "timestamp" (PVal.int ts))).map
        (fun kv => kv.1 ++ "=" ++ renderVal kv.2) := hmm
    rw [hr] at hmm2
    exact hmm2
  · refine ⟨_, rfl, ?_, ?_⟩
    · intro v hv
      obtain ⟨hvo, hvp⟩ := List.mem_filter.mp hv
      have h2 : (k, v) ∈ dictSet (dictSet d "timestamp" (PVal.int ts))
          "signature" (PVal.str (mac s (renderParams (orderParams
          (dictSet d "timestamp" (PVal.int ts)))))) :=
        (mem_orderParams_iff _ _ _ hksig).mp hvo
      have h1 : (k, v) ∈ dictSet d "timestamp" (PVal.int ts) :=
        mem_of_mem_dictSet_ne h2 hksig
      have h0 : (k, v) ∈ d := mem_of_mem_dictSet_ne h1 hkts
      have hveq : v = PVal.null := by
        have e1 := dictGet_eq_some_of_mem hnd h0
        have e2 := dictGet_eq_some_of_mem hnd hmem
        rw [e1] at e2
        exact Option.some.inj e2
      subst hveq
      cases hvp
    · intro hEq
      have hb' := hEq ▸ hb
      obtain ⟨_, hvp⟩ := List.mem_filter.mp hb'
      cases hvp

/-- Concrete C9 data: a null-valued `recvWindow` next to an ordinary
parameter. -/
def c9data : List (String × PVal) :=
  [("recvWindow", PVal.null), ("symbol", PVal.str "ETHUSDT")]

/-- A stand-in MAC function for concrete evaluations. -/
def mac0 : String → String → String := fun _ _ => "MACHEX"

theorem C9_null_param_signed_but_not_transmitted_witness :
    ((¬(("sec" : String) = ""))
      ∧ (dictKeys c9data).Nodup
      ∧ "signature" ∉ dictKeys c9data
      ∧ "timestamp" ∉ dictKeys c9data
      ∧ "requests_params" ∉ dictKeys c9data
      ∧ ("recvWindow", PVal.null) ∈ c9data)
    ∧ (∃ prep : DispatchPrep,
        requestPipeline mac0 (Option.some "sec") Option.none 1700000000000
            "get" true false [("data", PVal.dict c9data)] = Except.ok prep
        ∧ prep.signedString
            = Option.some (renderParams
                (orderParams (dictSet c9data "timestamp"
                  (PVal.int 1700000000000))))
        ∧ ("recvWindow", PVal.null) ∈ orderParams
            (dictSet c9data "timestamp" (PVal.int 1700000000000))
        ∧ ("recvWindow" ++ "=None") ∈ (orderParams
              (dictSet c9data "timestamp" (PVal.int 1700000000000))).map
            (fun kv => kv.1 ++ "=" ++ renderVal kv.2)
        ∧ ∃ tl, prep.transmitted = Option.some tl
          ∧ (∀ v, ("recvWindow", v) ∉ tl)
          ∧ orderParams (dictSet c9data "timestamp"
              (PVal.int 1700000000000)) ≠ tl) :=
  ⟨⟨by decide, by decide, by decide, by decide, by decide,
    List.mem_cons_self _ _⟩,
   C9_null_param_signed_but_not_transmitted mac0 "sec" 1700000000000 c9data
    "recvWindow" (by decide) (by decide) (by decide) (by decide) (by decide)
    (List.mem_cons_self _ _)⟩

/-! ## Claim C10 -/

/-- Concrete C10 input: the caller passes `timeout=99` as a keyword argument
and embeds `requests_params = {"timeout": 7}` inside the data dict; the
instance-level `requests_params` is `None`. -/
def c10kwargs : List (String × PVal) :=
  [("timeout", PVal.int 99),
   ("data", PVal.dict [("symbol", PVal.str "ETHUSDT"),
     ("requests_params", PVal.dict [("timeout", PVal.int 7)])])]

/-- C10 counterexample: with no instance-level `requests_params` at all, the
claim says the dispatched timeout must be the default 10; but a
`requests_params` mapping embedded in the call's data also overrides it, so
the dispatched timeout is 7. -/
theorem C10_embedded_requests_params_override :
    requestPipeline mac0 Option.none Option.none 0 "get" false false c10kwargs
      = Except.ok ⟨[("timeout", PVal.int 7),
          ("params", PVal.str "symbol=ETHUSDT")],
        Option.none, Option.some [("symbol", PVal.str "ETHUSDT")]⟩
    ∧ PVal.int 7 ≠ PVal.int 10 :=
  ⟨by with_unfolding_all rfl, by simp⟩

/-- C10 (amended): the caller's per-call `timeout` keyword argument is
unconditionally overwritten with the default 10; a `timeout` entry in the
instance-level `requests_params` overrides that default, and a `timeout`
entry in a `requests_params` mapping embedded in the call's data overrides
both. -/
theorem C10_timeout_resolution
    (mac : String → String → String) (secret : Option String)
    (kwargs0 rpI d rpE : List (String × PVal)) (method : String) (ts : Int)
    (forceParams : Bool)
    (hak : "api_key" ∉ dictKeys kwargs0)
    (hd : dictGet kwargs0 "data" = Option.some (PVal.dict d))
    (hrpE : dictGet d "requests_params" = Option.some (PVal.dict rpE))
    (hInd : (dictKeys rpI).Nodup)
    (hInD : "data" ∉ dictKeys rpI)
    (hEnd : (dictKeys rpE).Nodup)
    (hEnD : "data" ∉ dictKeys rpE) :
    ∃ prep : DispatchPrep,
      requestPipeline mac secret (Option.some rpI) ts method false forceParams
          kwargs0 = Except.ok prep
      ∧ dictGet prep.kwargs "timeout"
          = (match dictGet rpE "timeout" with
            | Option.some v => Option.some v
            | Option.none =>
              match dictGet rpI "timeout" with
              | Option.some v => Option.some v
              | Option.none => Option.some (PVal.int 10)) := by
  have hpop : popCredentials kwargs0 = kwargs0 := by
    unfold popCredentials
    rw [dictGet_eq_none _ _ hak]
    rfl
  have hk3T : dictGet (preludeStep (Option.some rpI) kwargs0) "timeout"
      = (match dictGet rpI "timeout" with
        | Option.some v => Option.some v
        | Option.none => Option.some (PVal.int 10)) := by
    unfold preludeStep
    by_cases hE : rpI.isEmpty
    · have hnil : rpI = [] := List.isEmpty_iff.mp hE
      subst hnil
      simp [dictGet_nil, dictGet_dictSet_self]
    · simp only [if_neg hE]
      rw [dictGet_dictUpdate rpI _ _ hInd, dictGet_dictSet_self]
      cases dictGet rpI "timeout" <;> rfl
  have hk3D : dictGet (preludeStep (Option.some rpI) kwargs0) "data"
      = Option.some (PVal.dict d) := by
    unfold preludeStep
    by_cases hE : rpI.isEmpty
    · simp only [if_pos hE]
      rw [dictGet_dictSet_ne _ _ _ _ (by decide)]
      exact hd
    · simp only [if_neg hE]
      rw [dictGet_dictUpdate rpI _ _ hInd, dictGet_eq_none rpI _ hInD,
        dictGet_dictSet_ne _ _ _ _ (by decide)]
      exact hd
  have hie : d.isEmpty = false := by
    cases d with
    | nil => cases hrpE
    | cons a l => rfl
  have hmerge : mergeEmbeddedParams (preludeStep (Option.some rpI) kwargs0)
      = Except.ok (dictUpdate
          (dictSet (preludeStep (Option.some rpI) kwargs0) "data"
            (PVal.dict (dictPop d "requests_params"))) rpE) := by
    unfold mergeEmbeddedParams
    rw [hk3D]
    simp [hie, hrpE]
  have hk4T : dictGet (dictUpdate
        (dictSet (preludeStep (Option.some rpI) kwargs0) "data"
          (PVal.dict (dictPop d "requests_params"))) rpE) "timeout"
      = (match dictGet rpE "timeout" with
        | Option.some v => Option.some v
        | Option.none =>
          dictGet (preludeStep (Option.some rpI) kwargs0) "timeout") := by
    rw [dictGet_dictUpdate rpE _ _ hEnd,
      dictGet_dictSet_ne _ _ _ _ (by decide)]
    cases dictGet rpE "timeout" <;> rfl
  have hk4D : dictGet (dictUpdate
        (dictSet (preludeStep (Option.some rpI) kwargs0) "data"
          (PVal.dict (dictPop d "requests_params"))) rpE) "data"
      = Option.some (PVal.dict (dictPop d "requests_params")) := by
    rw [dictGet_dictUpdate rpE _ _ hEnd, dictGet_eq_none rpE _ hEnD,
      dictGet_dictSet_self]
  obtain ⟨kw6, t6, htrans, htimeout⟩ := transmitStep_timeout method forceParams
    (dictUpdate (dictSet (preludeStep (Option.some rpI) kwargs0) "data"
      (PVal.dict (dictPop d "requests_params"))) rpE)
    (dictPop d "requests_params") hk4D
  refine ⟨⟨kw6, Option.none, t6⟩, ?_, ?_⟩
  · unfold requestPipeline
    have hsign : signStep mac (effectiveSecret secret kwargs0) ts false
        (dictUpdate (dictSet (preludeStep (Option.some rpI) kwargs0) "data"
          (PVal.dict (dictPop d "requests_params"))) rpE)
        = Except.ok ((dictUpdate (dictSet (preludeStep (Option.some rpI)
            kwargs0) "data" (PVal.dict (dictPop d "requests_params"))) rpE),
          Option.none) := rfl
    simp only [hpop, hmerge, hsign, htrans]
  · show dictGet kw6 "timeout" = _
    rw [htimeout, hk4T, hk3T]

theorem C10_timeout_resolution_witness :
    (("api_key" ∉ dictKeys c10kwargs)
      ∧ dictGet c10kwargs "data" = Option.some (PVal.dict
          [("symbol", PVal.str "ETHUSDT"),
           ("requests_params", PVal.dict [("timeout", PVal.int 7)])])
      ∧ dictGet [("symbol", PVal.str "ETHUSDT"),
          ("requests_params", PVal.dict [("timeout", PVal.int 7)])]
          "requests_params"
          = Option.some (PVal.dict [("timeout", PVal.int 7)])
      ∧ (dictKeys ([] : List (String × PVal))).Nodup
      ∧ "data" ∉ dictKeys ([] : List (String × PVal))
      ∧ (dictKeys [("timeout", PVal.int 7)]).Nodup
      ∧ "data" ∉ dictKeys [("timeout", PVal.int 7)])
    ∧ (∃ prep : DispatchPrep,
        requestPipeline mac0 Option.none (Option.some []) 0 "get" false false
            c10kwargs = Except.ok prep
        ∧ dictGet prep.kwargs "timeout"
            = (match dictGet [("timeout", PVal.int 7)] "timeout" with
              | Option.some v => Option.some v
              | Option.none =>
                match dictGet ([] : List (String × PVal)) "timeout" with
                | Option.some v => Option.some v
                | Option.none => Option.some (PVal.int 10))) :=
  ⟨⟨by decide, rfl, rfl, by decide, by decide, by decide, by decide⟩,
   C10_timeout_resolution mac0 Option.none c10kwargs []
    [("symbol", PVal.str "ETHUSDT"),
     ("requests_params", PVal.dict [("timeout", PVal.int 7)])]
    [("timeout", PVal.int 7)] "get" 0 false
    (by decide) rfl rfl (by decide) (by decide) (by decide) (by decide)⟩

end BinanceSpec
